import Mathlib

/-!
Verification development for the combreq repository (src/fuser.py).

The file gives a shallow embedding of the pipeline of fuser.py:
the line parser (the regular expressions at lines 35 and 84), the
version-string to number conversion (line 48), the constraint fuser
(lines 92 to 183) and the renderer (line 185).  Python floats are
modelled as rationals, Python exceptions as an explicit error type,
and the dynamically typed values that flow through the fuser (the
empty string placeholder, the int literal 0, parsed floats, math.inf)
as an explicit sum type `Val`.
-/

namespace Combreq

/-! ### Character classes of the regular expressions in fuser.py -/

/-- the class `[A-Za-z]` of the line regex `rgx` (fuser.py line 35). -/
def isAlphaCh (c : Char) : Bool :=
  ('A' ≤ c && c ≤ 'Z') || ('a' ≤ c && c ≤ 'z')

/-- the class `[<>=]` of the line regex `rgx` (fuser.py line 35). -/
def isOpCh (c : Char) : Bool :=
  c == '<' || c == '>' || c == '='

/-- the class `[\d\.]` of the line regex `rgx` (fuser.py line 35);
digits are modelled as ASCII digits. -/
def isVerCh (c : Char) : Bool :=
  c.isDigit || c == '.'

/-- numeric value of a big-endian list of ASCII digit characters,
as produced by matching a `\d+` group and applying `int`/`float`. -/
def natVal (l : List Char) : Nat :=
  l.foldl (fun a c => 10 * a + (c.toNat - 48)) 0

/-- fuser.py line 32: `allowed_ops = ["<","<=","==",">=",">"]`. -/
def allowed_ops : List String := ["<", "<=", "==", ">=", ">"]

/-- one parsed requirement line: `(package, operator, version)`
(fuser.py line 78). -/
abbrev RawEntry := String × String × String

/-! ### The line parser (fuser.py lines 73 to 89) -/

/-- `rgx.search` for `rgx = re.compile(r"([A-Za-z]+)([<>=]*)([\d\.]*)")`
(fuser.py line 35): the leftmost match needs at least one letter; the
three groups are then the maximal runs of letters, of `[<>=]` characters
and of `[\d\.]` characters from that position on.  Returns `none` when
the line holds no letter (in Python `match[1]` then raises TypeError). -/
def rgxSearch (cs : List Char) : Option (List Char × List Char × List Char) :=
  let tl := cs.dropWhile (fun c => !(isAlphaCh c))
  match tl with
  | [] => none
  | _ :: _ =>
    let nm := tl.takeWhile isAlphaCh
    let r1 := tl.dropWhile isAlphaCh
    let ops := r1.takeWhile isOpCh
    let r2 := r1.dropWhile isOpCh
    let vt := r2.takeWhile isVerCh
    some (nm, ops, vt)

/-- does the line begin with `--` (half of the pass-through pattern
`^(--|git\+)` at fuser.py line 84)? -/
def startsDashDash : List Char → Bool
  | c1 :: c2 :: _ => c1 == '-' && c2 == '-'
  | _ => false

/-- does the line begin with `git+` (other half of the pass-through
pattern `^(--|git\+)` at fuser.py line 84)? -/
def startsGitPlus : List Char → Bool
  | c1 :: c2 :: c3 :: c4 :: _ => c1 == 'g' && c2 == 'i' && c3 == 't' && c4 == '+'
  | _ => false

/-- Python `t.split("\n")` on the character list of `t`
(fuser.py line 82). -/
def splitNl : List Char → List (List Char)
  | [] => [[]]
  | c :: rest =>
    if c = '\n' then [] :: splitNl rest
    else
      match splitNl rest with
      | l :: ls => (c :: l) :: ls
      | [] => [[c]]

/-- parse one non-skipped, non-pass-through line with `rgx`
(fuser.py lines 87 to 88); `none` models the TypeError raised by
`match[1]` when the regex does not match. -/
def parse_line (cs : List Char) : Option RawEntry :=
  (rgxSearch cs).map (fun x => (String.mk x.1, String.mk x.2.1, String.mk x.2.2))

/-- the loop body of `parse_requirements` (fuser.py lines 82 to 88):
skip empty lines and lines starting with `#`, pass lines starting with
`--` or `git+` through as `(line, "", "")`, parse the rest with `rgx`. -/
def parseLines : List (List Char) → Option (List RawEntry)
  | [] => some []
  | cs :: rest =>
    if cs.length = 0 then parseLines rest
    else if cs.headD ' ' = '#' then parseLines rest
    else if startsDashDash cs || startsGitPlus cs then
      match parseLines rest with
      | some l => some ((String.mk cs, "", "") :: l)
      | none => none
    else
      match parse_line cs, parseLines rest with
      | some e, some l => some (e :: l)
      | _, _ => none

/-- fuser.py line 73: `parse_requirements`. -/
def parse_requirements (t : String) : Option (List RawEntry) :=
  parseLines (splitNl t.data)

/-! ### version_number_to_float (fuser.py lines 48 to 49) -/

/-- fuser.py line 49:
`float(re.search("^\d+\.\d+", v)[0])` on a version string: the anchored
match takes a maximal digit run, a dot and a maximal digit run, and the
float value of the matched text is `d1 + d2 / 10 ^ |d2|`.  `none` models
the TypeError raised by `[0]` when the string does not start with
`digits.digits`. -/
def version_number_to_float (v : String) : Option Rat :=
  let d1 := v.data.takeWhile Char.isDigit
  let r1 := v.data.dropWhile Char.isDigit
  if d1.length = 0 then none
  else
    match r1 with
    | '.' :: r2 =>
      let d2 := r2.takeWhile Char.isDigit
      if d2.length = 0 then none
      else some (mkRat (natVal d1 * 10 ^ d2.length + natVal d2) (10 ^ d2.length))
    | _ => none

/-! ### The dynamically typed values that flow through the fuser -/

/-- a Python value appearing in the fuser's versions lists and ranges:
the empty-string placeholder of line 135, the int literal 0 of line 152,
a parsed version float, or math.inf. -/
inductive Val where
  | str (s : String)
  | int (n : Int)
  | float (q : Rat)
  | inf
  deriving DecidableEq, Repr

/-- Python `<` between the values the fuser compares (numbers and
math.inf).  A comparison involving a string would raise TypeError in
Python; it is unreachable in the fuser and modelled as `false`. -/
def Val.blt : Val → Val → Bool
  | .int a, .int b => a < b
  | .int a, .float q => (a : Rat) < q
  | .int _, .inf => true
  | .float q, .int b => q < (b : Rat)
  | .float a, .float b => a < b
  | .float _, .inf => true
  | .inf, _ => false
  | .str _, _ => false
  | _, .str _ => false

/-- Python `==` between the values the fuser compares: numeric equality
across int and float, `inf == inf`, and `False` across kinds. -/
def Val.beq : Val → Val → Bool
  | .str a, .str b => a == b
  | .int a, .int b => a == b
  | .int a, .float q => (a : Rat) == q
  | .float q, .int b => q == (b : Rat)
  | .float a, .float b => a == b
  | .inf, .inf => true
  | _, _ => false

/-- Python `max(iterable)` over the fuser's range ends: keeps the first
maximal element.  `max` of an empty iterable raises in Python; the
fuser only applies it to a non-empty `op_range`, so the `[]` case is
unreachable junk. -/
def pyMaxVal : List Val → Val
  | [] => .str ""
  | a :: l => l.foldl (fun acc x => if Val.blt acc x then x else acc) a

/-- Python `min(iterable)` over the fuser's range ends: keeps the first
minimal element; `[]` unreachable as for `pyMaxVal`. -/
def pyMinVal : List Val → Val
  | [] => .str ""
  | a :: l => l.foldl (fun acc x => if Val.blt x acc then x else acc) a

/-- fuser.py lines 172 and 177 compare a number (`floor` or `roof`)
with `op_range[op]`, a two-element list.  In Python a number never
equals a list, so the comparison is always `False`. -/
def pyEqValPair (_v : Val) (_r : Val × Val) : Bool := false

/-! ### Errors raised by the pipeline -/

/-- the exceptions the pipeline can raise, carrying the data that the
source interpolates into the message.  `dependencyConflict pkg vs`
models `DependencyConflictError(dependency_conflict_error_msg(pkg, versions))`
(fuser.py lines 37, 156, 167); `nameError` models the NameError raised
at line 160, where the f-string of the intended UnsupportedOperatorError
references the undefined name `alowed_ops` (the module defines
`allowed_ops`, line 32); `typeError` models the TypeError of
`version_number_to_float` on a version string without a
`digits.digits` prefix. -/
inductive PyErr where
  | dependencyConflict (pkg : String) (versions : List Rat)
  | nameError (missing : String)
  | typeError
  deriving DecidableEq, Repr

instance {ε α : Type} [DecidableEq ε] [DecidableEq α] : DecidableEq (Except ε α) := fun x y =>
  match x, y with
  | .ok a, .ok b =>
    if h : a = b then isTrue (by rw [h]) else isFalse (fun hh => by cases hh; exact h rfl)
  | .error a, .error b =>
    if h : a = b then isTrue (by rw [h]) else isFalse (fun hh => by cases hh; exact h rfl)
  | .ok _, .error _ => isFalse (fun hh => by cases hh)
  | .error _, .ok _ => isFalse (fun hh => by cases hh)

/-! ### The fuser (fuser.py lines 92 to 183) -/

/-- insert into a sorted list, keeping duplicates (stable, ascending). -/
def insertR (x : Rat) : List Rat → List Rat
  | [] => [x]
  | y :: l => if x ≤ y then x :: y :: l else y :: insertR x l

/-- Python `sorted` on a list of floats: ascending insertion sort. -/
def isort (l : List Rat) : List Rat :=
  l.foldr insertR []

/-- fuel-driven body of `firstDedup`; the fuel always suffices when it
starts at the list length, and the zero-fuel case is unreachable junk. -/
def firstDedupF : Nat → List String → List String
  | _, [] => []
  | 0, l => l
  | f + 1, a :: l => a :: firstDedupF f (l.filter (fun b => b ≠ a))

/-- first-occurrence deduplication, the key order of a Python dict
comprehension that repeatedly assigns the same keys
(fuser.py lines 143 to 146). -/
def firstDedup (l : List String) : List String :=
  firstDedupF l.length l

/-- fuser.py line 144: `sorted(_v for (_op,_v) in versions if _op==op)`. -/
def bucketOf (versions : List (String × Rat)) (op : String) : List Rat :=
  isort (versions.filterMap (fun p => if p.1 = op then some p.2 else none))

/-- fuser.py lines 143 to 146: the dict
`{op: sorted(_v for (_op,_v) in versions if _op==op) for (op,v) in versions}`,
as an association list whose keys appear in first-occurrence order. -/
def versionsByOp (versions : List (String × Rat)) : List (String × List Rat) :=
  (firstDedup (versions.map (fun p => p.1))).map (fun op => (op, bucketOf versions op))

/-- fuser.py lines 149 to 160: build `op_range`, iterating the buckets
in dict order.  `<=`/`<` give `[0, min]` (the int literal 0 and the
head of the sorted bucket), `>=`/`>` give `[max, inf]`, `==` with more
than one distinct value raises DependencyConflictError, `==` otherwise
gives `[v, v]`, and any other operator reaches the raise at line 160
whose message f-string evaluates the undefined name `alowed_ops`,
so Python raises NameError there. -/
def buildOpRange (pkg : String) : List (String × List Rat) → Except PyErr (List (String × Val × Val))
  | [] => .ok []
  | (op, vs) :: rest =>
    if op = "<=" ∨ op = "<" then
      match buildOpRange pkg rest with
      | .error e => .error e
      | .ok l => .ok ((op, (Val.int 0, Val.float (vs.headD 0))) :: l)
    else if op = ">=" ∨ op = ">" then
      match buildOpRange pkg rest with
      | .error e => .error e
      | .ok l => .ok ((op, (Val.float (vs.getLastD 0), Val.inf)) :: l)
    else if op = "==" then
      if vs.dedup.length > 1 then .error (.dependencyConflict pkg vs)
      else
        match buildOpRange pkg rest with
        | .error e => .error e
        | .ok l => .ok ((op, (Val.float (vs.headD 0), Val.float (vs.headD 0))) :: l)
    else .error (.nameError "alowed_ops")

/-- after the loop at fuser.py line 150 the Python variable `versions`
holds the sorted bucket of the last key of `versions_by_op`; the raise
at line 167 interpolates it. -/
def lastBucket (vbo : List (String × List Rat)) : List Rat :=
  match vbo.getLast? with
  | some p => p.2
  | none => []

/-- fuser.py lines 141 to 181: fuse at least two versioned constraints
for one package.  Computes `op_range`, then
`roof = max(range[1])`, `floor = min(range[0])`, raises on
`roof < floor`, and otherwise emits a single open bound or the closed
range.  The equality tests of lines 172 and 177 compare a number with
the two-element list `op_range[op]` and are therefore always False
(`pyEqValPair`), so the inclusive operators are never chosen here. -/
def fuseMany (pkg : String) (versions : List (String × Rat)) : Except PyErr (List (String × Val)) :=
  let vbo := versionsByOp versions
  match buildOpRange pkg vbo with
  | .error e => .error e
  | .ok opr =>
    let roof := pyMaxVal (opr.map (fun r => r.2.2))
    let fl := pyMinVal (opr.map (fun r => r.2.1))
    if Val.blt roof fl then .error (.dependencyConflict pkg (lastBucket vbo))
    else if Val.beq roof .inf then
      .ok (match List.lookup ">=" opr with
        | some r => if pyEqValPair fl r then [(">=", fl)] else [(">", fl)]
        | none => [(">", fl)])
    else if Val.beq fl (.int 0) then
      .ok (match List.lookup "<=" opr with
        | some r => if pyEqValPair roof r then [("<=", roof)] else [("<", roof)]
        | none => [("<", roof)])
    else .ok [(">=", fl), ("<=", roof)]

/-- fuser.py lines 125 to 131: the versioned entries of one package, in
source order (`item[0] == pkg and len(item[2])`). -/
def entriesFor (pkg : String) (rl : List (List RawEntry)) : List RawEntry :=
  rl.flatten.filter (fun e => e.1 == pkg && e.2.2.length != 0)

/-- convert the versioned entries of a package to `(op, float)` pairs,
propagating the TypeError of `version_number_to_float`. -/
def pkgVersionsLoop : List RawEntry → Except PyErr (List (String × Rat))
  | [] => .ok []
  | e :: rest =>
    match version_number_to_float e.2.2 with
    | none => .error .typeError
    | some q =>
      match pkgVersionsLoop rest with
      | .error er => .error er
      | .ok l => .ok ((e.2.1, q) :: l)

/-- fuser.py lines 125 to 131: the `versions` list of one package. -/
def pkgVersions (pkg : String) (rl : List (List RawEntry)) : Except PyErr (List (String × Rat)) :=
  pkgVersionsLoop (entriesFor pkg rl)

/-- fuser.py lines 125 to 182: resolve one package.  No versioned
entry gives the placeholder `("", "")`; exactly one is kept as is;
two or more go through the bucket intersection machinery. -/
def fusePkg (pkg : String) (rl : List (List RawEntry)) : Except PyErr (List (String × Val)) :=
  match pkgVersions pkg rl with
  | .error e => .error e
  | .ok versions =>
    if versions.length = 0 then .ok [("", Val.str "")]
    else if versions.length = 1 then .ok (versions.map (fun p => (p.1, Val.float p.2)))
    else fuseMany pkg versions

/-- fuser.py lines 115 to 119: `set(item[0] ...)`, the distinct package
names.  A Python set iterates in an unspecified, hash-dependent order;
the embedding fixes one deduplication order, and every theorem below is
insensitive to it (single-package inputs or lookups by key). -/
def allPkgs (rl : List (List RawEntry)) : List String :=
  (rl.flatten.map (fun e => e.1)).dedup

/-- fuser.py line 123: the `for pkg in pkgs` loop, building
`pkgs_to_versions` entry by entry and propagating the first raise. -/
def fuserLoop (rl : List (List RawEntry)) : List String → Except PyErr (List (String × List (String × Val)))
  | [] => .ok []
  | pkg :: rest =>
    match fusePkg pkg rl with
    | .error e => .error e
    | .ok v =>
      match fuserLoop rl rest with
      | .error e => .error e
      | .ok m => .ok ((pkg, v) :: m)

/-- fuser.py line 92: `fuser`. -/
def fuser (rl : List (List RawEntry)) : Except PyErr (List (String × List (String × Val))) :=
  fuserLoop rl (allPkgs rl)

/-! ### The renderer (fuser.py lines 185 to 189) -/

/-- the ASCII character of one decimal digit. -/
def digitChar (d : Nat) : Char := Char.ofNat (48 + d)

/-- fuel-driven body of `digsLE`; fuel `n` always suffices and the
zero-fuel fallthrough is unreachable junk. -/
def digsLEF : Nat → Nat → List Nat
  | 0, n => [n % 10]
  | f + 1, n => if n < 10 then [n] else n % 10 :: digsLEF f (n / 10)

/-- little-endian decimal digits of a natural number. -/
def digsLE (n : Nat) : List Nat :=
  digsLEF n n

/-- big-endian decimal digit characters of a natural number. -/
def natDigs (n : Nat) : List Char :=
  ((digsLE n).reverse).map digitChar

/-- little-endian decimal digits of `b` padded to exactly `k` digits. -/
def digsPadLE : Nat → Nat → List Nat
  | 0, _ => []
  | k + 1, b => b % 10 :: digsPadLE k (b / 10)

/-- big-endian digit characters of `b` padded to exactly `k` digits. -/
def natPadChars (k : Nat) (b : Nat) : List Char :=
  ((digsPadLE k b).reverse).map digitChar

/-- the least exponent k below 60 with `den` dividing `10 ^ k`; it
exists for every denominator a Python float of this program can have. -/
def findTenExp (den : Nat) : Option Nat :=
  (List.range 60).find? (fun k => 10 ^ k % den == 0)

/-- Python `str()` on the non-negative decimal floats this program
produces: the shortest decimal digits, with at least one fractional
digit (so `str(6.0) = "6.0"`, `str(3.2) = "3.2"`).  Rationals outside
that shape cannot occur and render as junk. -/
def floatRepr (q : Rat) : String :=
  match findTenExp q.den with
  | some k =>
    let n : Nat := q.num.toNat * (10 ^ k / q.den)
    let fracDs := if k = 0 then ['0'] else natPadChars k (n % 10 ^ k)
    String.mk (natDigs (n / 10 ^ k) ++ '.' :: fracDs)
  | none => "?"

/-- the f-string interpolation `f"{version}"` of fuser.py line 187 on
the values a resolved constraint can hold. -/
def pyStr : Val → String
  | .str s => s
  | .int n => toString n
  | .float q => floatRepr q
  | .inf => "inf"

/-- fuser.py lines 185 to 189: `to_string`, one line per package, the
package name directly followed by the comma-joined `op`-`version`
clauses. -/
def to_string (m : List (String × List (String × Val))) : String :=
  String.intercalate "\n"
    (m.map (fun p => p.1 ++ String.intercalate "," (p.2.map (fun c => c.1 ++ pyStr c.2))))

/-! ### Constraint semantics (for the round-trip claim)

The following two definitions are not part of the source; they give the
standard meaning of a resolved constraint, used to state that two
constraint sets are (not) equivalent. -/

/-- does the version `x` satisfy one resolved clause? -/
def clauseSat (c : String × Val) (x : Rat) : Bool :=
  match c.2 with
  | .float q =>
    if c.1 = "<" then x < q
    else if c.1 = "<=" then x ≤ q
    else if c.1 = "==" then x == q
    else if c.1 = ">=" then q ≤ x
    else if c.1 = ">" then q < x
    else true
  | _ => true

/-- does the version `x` satisfy every clause of a resolved constraint? -/
def clausesSat (cs : List (String × Val)) (x : Rat) : Bool :=
  cs.all (fun c => clauseSat c x)

/-! ### Auxiliary interpretations used only in statements and proofs -/

/-- is the value numeric (or infinite), that is, comparable in Python? -/
def Val.isNum : Val → Bool
  | .str _ => false
  | _ => true

/-- the order-theoretic meaning of a numeric value, with math.inf as the
top element; strings (never compared) are sent to junk. -/
def Val.toW : Val → WithTop Rat
  | .str _ => ((0 : Rat) : WithTop Rat)
  | .int n => ((n : Rat) : WithTop Rat)
  | .float q => (q : WithTop Rat)
  | .inf => ⊤

/-- numeric value of a little-endian list of decimal digits. -/
def leVal : List Nat → Nat
  | [] => 0
  | d :: ds => d + 10 * leVal ds

/-! ## Helper lemmas -/

lemma takeWhile_of_all {α : Type} {p : α → Bool} {l : List α} (h : ∀ c ∈ l, p c = true) :
    l.takeWhile p = l := by
  induction l with
  | nil => rfl
  | cons a t ih =>
    rw [List.takeWhile_cons_of_pos (h a (by simp))]
    rw [ih (fun c hc => h c (by simp [hc]))]

lemma takeWhile_append_head {α : Type} {p : α → Bool} {l1 l2 : List α}
    (h1 : ∀ c ∈ l1, p c = true) (h2 : ∀ c, l2.head? = some c → p c = false) :
    (l1 ++ l2).takeWhile p = l1 := by
  induction l1 with
  | nil =>
    cases l2 with
    | nil => rfl
    | cons c t => simp [List.takeWhile_cons, h2 c rfl]
  | cons a t ih =>
    rw [List.cons_append, List.takeWhile_cons_of_pos (h1 a (by simp))]
    rw [ih (fun c hc => h1 c (by simp [hc]))]

lemma dropWhile_append_head {α : Type} {p : α → Bool} {l1 l2 : List α}
    (h1 : ∀ c ∈ l1, p c = true) (h2 : ∀ c, l2.head? = some c → p c = false) :
    (l1 ++ l2).dropWhile p = l2 := by
  induction l1 with
  | nil =>
    cases l2 with
    | nil => rfl
    | cons c t => simp [List.dropWhile_cons, h2 c rfl]
  | cons a t ih =>
    simp only [List.cons_append, List.dropWhile_cons, h1 a (by simp)]
    exact ih (fun c hc => h1 c (by simp [hc]))

lemma splitNl_no_newline {cs : List Char} (h : ¬ '\n' ∈ cs) : splitNl cs = [cs] := by
  induction cs with
  | nil => rfl
  | cons c t ih =>
    have hc : ¬ c = '\n' := fun hh => h (by simp [hh])
    have ht : ¬ '\n' ∈ t := fun hh => h (by simp [hh])
    simp [splitNl, hc, ih ht]

lemma fuserLoop_lookup {rl : List (List RawEntry)} {ps : List String}
    {m : List (String × List (String × Val))} {pkg : String}
    (hnd : ps.Nodup) (h : fuserLoop rl ps = .ok m) (hp : pkg ∈ ps) :
    List.lookup pkg m = (fusePkg pkg rl).toOption := by
  induction ps generalizing m with
  | nil => cases hp
  | cons a t ih =>
    rw [fuserLoop] at h
    cases hfa : fusePkg a rl with
    | error e => rw [hfa] at h; cases h
    | ok v =>
      rw [hfa] at h
      cases hft : fuserLoop rl t with
      | error e => rw [hft] at h; cases h
      | ok m' =>
        rw [hft] at h
        cases h
        rcases List.mem_cons.mp hp with rfl | hpt
        · simp [List.lookup, hfa, Except.toOption]
        · have hne : (pkg == a) = false := by
            simp only [beq_eq_false_iff_ne, ne_eq]
            intro hh
            subst hh
            exact (List.nodup_cons.mp hnd).1 hpt
          simp only [List.lookup, hne]
          exact ih (List.nodup_cons.mp hnd).2 hft hpt

lemma mem_allPkgs_of_entry {rl : List (List RawEntry)} {e : RawEntry}
    (he : e ∈ rl.flatten) : e.1 ∈ allPkgs rl := by
  rw [allPkgs, List.mem_dedup]
  exact List.mem_map_of_mem _ he

lemma vntf_length_ne_zero {v : String} {q : Rat}
    (h : version_number_to_float v = some q) : v.length ≠ 0 := by
  intro hlen
  have hdata : v.data = [] := by
    cases v with
    | mk d =>
      simp only [String.length] at hlen
      exact List.length_eq_zero.mp hlen
  rw [version_number_to_float, hdata] at h
  simp at h

lemma startsDashDash_shape {cs : List Char} (h : startsDashDash cs = true) :
    ∃ t, cs = '-' :: '-' :: t := by
  match cs with
  | [] => cases h
  | [_] => cases h
  | c1 :: c2 :: t =>
    simp only [startsDashDash, Bool.and_eq_true, beq_iff_eq] at h
    exact ⟨t, by rw [h.1, h.2]⟩

lemma startsGitPlus_shape {cs : List Char} (h : startsGitPlus cs = true) :
    ∃ t, cs = 'g' :: 'i' :: 't' :: '+' :: t := by
  match cs with
  | [] => cases h
  | [_] => cases h
  | [_, _] => cases h
  | [_, _, _] => cases h
  | c1 :: c2 :: c3 :: c4 :: t =>
    simp only [startsGitPlus, Bool.and_eq_true, beq_iff_eq] at h
    exact ⟨t, by rw [h.1.1.1, h.1.1.2, h.1.2, h.2]⟩

lemma fuser_single_passthrough (r : String) :
    fuser [[(r, "", "")]] = .ok [(r, [("", Val.str "")])] := by
  have hdedup : ([r] : List String).dedup = [r] := by
    rw [List.dedup_cons_of_not_mem (List.not_mem_nil r)]
    rfl
  simp [fuser, allPkgs, hdedup, fuserLoop, fusePkg, pkgVersions, entriesFor,
    pkgVersionsLoop]

lemma to_string_single_noconstraint (r : String) :
    to_string [(r, [("", Val.str "")])] = r := by
  show String.intercalate "\n" [r ++ String.intercalate "," ["" ++ pyStr (Val.str "")]] = r
  show r ++ "" = r
  exact String.append_empty r

lemma blt_iff {a b : Val} (ha : a.isNum = true) (hb : b.isNum = true) :
    Val.blt a b = true ↔ a.toW < b.toW := by
  cases a <;> cases b <;>
    simp_all [Val.blt, Val.isNum, Val.toW, WithTop.coe_lt_coe, WithTop.coe_lt_top]

lemma foldlMin_le {l : List Val} : ∀ {a : Val}, a.isNum = true → (∀ x ∈ l, x.isNum = true) →
    (l.foldl (fun acc x => if Val.blt x acc then x else acc) a).isNum = true ∧
    (l.foldl (fun acc x => if Val.blt x acc then x else acc) a).toW ≤ a.toW := by
  induction l with
  | nil => exact fun ha _ => ⟨ha, le_refl _⟩
  | cons x t ih =>
    intro a ha hl
    have hx := hl x (by simp)
    simp only [List.foldl_cons]
    by_cases hb : Val.blt x a = true
    · rw [if_pos hb]
      have h1 := ih hx (fun y hy => hl y (by simp [hy]))
      exact ⟨h1.1, le_trans h1.2 (le_of_lt ((blt_iff hx ha).mp hb))⟩
    · rw [if_neg hb]
      exact ih ha (fun y hy => hl y (by simp [hy]))

lemma foldlMax_ge {l : List Val} : ∀ {a : Val}, a.isNum = true → (∀ x ∈ l, x.isNum = true) →
    (l.foldl (fun acc x => if Val.blt acc x then x else acc) a).isNum = true ∧
    a.toW ≤ (l.foldl (fun acc x => if Val.blt acc x then x else acc) a).toW := by
  induction l with
  | nil => exact fun ha _ => ⟨ha, le_refl _⟩
  | cons x t ih =>
    intro a ha hl
    have hx := hl x (by simp)
    simp only [List.foldl_cons]
    by_cases hb : Val.blt a x = true
    · rw [if_pos hb]
      have h1 := ih hx (fun y hy => hl y (by simp [hy]))
      exact ⟨h1.1, le_trans (le_of_lt ((blt_iff ha hx).mp hb)) h1.2⟩
    · rw [if_neg hb]
      exact ih ha (fun y hy => hl y (by simp [hy]))

lemma insertR_perm (x : Rat) (l : List Rat) : List.Perm (insertR x l) (x :: l) := by
  induction l with
  | nil => exact List.Perm.refl _
  | cons y t ih =>
    rw [insertR]
    by_cases h : x ≤ y
    · rw [if_pos h]
    · rw [if_neg h]
      exact List.Perm.trans (List.Perm.cons y ih) (List.Perm.swap x y t)

lemma isort_perm (l : List Rat) : List.Perm (isort l) l := by
  induction l with
  | nil => exact List.Perm.refl _
  | cons a t ih =>
    rw [isort, List.foldr_cons]
    exact List.Perm.trans (insertR_perm a _) (List.Perm.cons a ih)

lemma firstDedupF_subset {x : String} : ∀ {f : Nat} {l : List String},
    x ∈ firstDedupF f l → x ∈ l := by
  intro f
  induction f with
  | zero =>
    intro l hx
    cases l with
    | nil => cases hx
    | cons a t => exact hx
  | succ f ih =>
    intro l hx
    cases l with
    | nil => cases hx
    | cons a t =>
      rw [firstDedupF] at hx
      rcases List.mem_cons.mp hx with rfl | hx'
      · simp
      · exact List.mem_cons_of_mem a (List.mem_filter.mp (ih hx')).1

lemma mem_versionsByOp {versions : List (String × Rat)} {p : String × List Rat}
    (hp : p ∈ versionsByOp versions) :
    (∃ e ∈ versions, e.1 = p.1) ∧ p.2 = bucketOf versions p.1 := by
  rw [versionsByOp] at hp
  obtain ⟨op, hop, rfl⟩ := List.mem_map.mp hp
  rw [firstDedup] at hop
  obtain ⟨e, he, hee⟩ := List.mem_map.mp (firstDedupF_subset hop)
  exact ⟨⟨e, he, hee⟩, rfl⟩

lemma bucketOf_nonneg {versions : List (String × Rat)}
    (hpos : ∀ p ∈ versions, 0 ≤ p.2) (op : String) :
    ∀ v ∈ bucketOf versions op, 0 ≤ v := by
  intro v hv
  rw [bucketOf] at hv
  obtain ⟨p, hp, hpe⟩ := List.mem_filterMap.mp ((isort_perm _).mem_iff.mp hv)
  by_cases h : p.1 = op
  · rw [if_pos h] at hpe
    cases hpe
    exact hpos p hp
  · rw [if_neg h] at hpe
    cases hpe

lemma getLastD_nonneg : ∀ (l : List Rat) (d : Rat),
    (∀ x ∈ l, 0 ≤ x) → 0 ≤ d → 0 ≤ l.getLastD d := by
  intro l
  induction l with
  | nil => exact fun d _ hd => hd
  | cons a t ih =>
    intro d h _
    rw [List.getLastD_cons]
    exact ih a (fun x hx => h x (by simp [hx])) (h a (by simp))

lemma headD_nonneg (l : List Rat) (d : Rat)
    (h : ∀ x ∈ l, 0 ≤ x) (hd : 0 ≤ d) : 0 ≤ l.headD d := by
  cases l with
  | nil => exact hd
  | cons a t => simpa using h a (by simp)

lemma buildOpRange_ok {pkg : String} : ∀ {vbo : List (String × List Rat)},
    (∀ p ∈ vbo, p.1 ∈ allowed_ops) →
    (∀ p ∈ vbo, p.1 = "==" → p.2.dedup.length ≤ 1) →
    (∀ p ∈ vbo, ∀ v ∈ p.2, 0 ≤ v) →
    ∃ opr, buildOpRange pkg vbo = .ok opr ∧ opr.length = vbo.length ∧
      (∀ r ∈ opr, (r.2.1).isNum = true ∧ (r.2.2).isNum = true ∧ (r.2.1).toW ≤ (r.2.2).toW) := by
  intro vbo
  induction vbo with
  | nil => exact fun _ _ _ => ⟨[], rfl, rfl, by simp⟩
  | cons p rest ih =>
    intro hops heq hpos
    obtain ⟨opr', hopr', hlen', hall'⟩ :=
      ih (fun x hx => hops x (by simp [hx])) (fun x hx => heq x (by simp [hx]))
        (fun x hx => hpos x (by simp [hx]))
    obtain ⟨op, vs⟩ := p
    have hvs : ∀ v ∈ vs, 0 ≤ v := fun v hv => hpos (op, vs) (by simp) v hv
    have hhead : (0 : Rat) ≤ vs.headD 0 := headD_nonneg vs 0 hvs (le_refl 0)
    have hlast : (0 : Rat) ≤ vs.getLastD 0 := getLastD_nonneg vs 0 hvs (le_refl 0)
    have hop : op ∈ allowed_ops := hops (op, vs) (by simp)
    rw [allowed_ops] at hop
    simp only [List.mem_cons, List.mem_singleton, List.not_mem_nil, or_false] at hop
    rcases hop with rfl | rfl | rfl | rfl | rfl
    · -- op = "<"
      refine ⟨("<", (Val.int 0, Val.float (vs.headD 0))) :: opr', ?_, by simp [hlen'], ?_⟩
      · rw [buildOpRange, if_pos (Or.inr rfl), hopr']
      · intro r hr
        rcases List.mem_cons.mp hr with rfl | hr'
        · refine ⟨rfl, rfl, ?_⟩
          show ((((0 : Int) : Rat)) : WithTop Rat) ≤ ((vs.headD 0 : Rat) : WithTop Rat)
          rw [WithTop.coe_le_coe]
          simpa using hhead
        · exact hall' r hr'
    · -- op = "<="
      refine ⟨("<=", (Val.int 0, Val.float (vs.headD 0))) :: opr', ?_, by simp [hlen'], ?_⟩
      · rw [buildOpRange, if_pos (Or.inl rfl), hopr']
      · intro r hr
        rcases List.mem_cons.mp hr with rfl | hr'
        · refine ⟨rfl, rfl, ?_⟩
          show ((((0 : Int) : Rat)) : WithTop Rat) ≤ ((vs.headD 0 : Rat) : WithTop Rat)
          rw [WithTop.coe_le_coe]
          simpa using hhead
        · exact hall' r hr'
    · -- op = "=="
      have hded : ¬ vs.dedup.length > 1 := by
        have h1 : vs.dedup.length ≤ 1 := by simpa using heq ("==", vs) (by simp) rfl
        omega
      refine ⟨("==", (Val.float (vs.headD 0), Val.float (vs.headD 0))) :: opr', ?_, by simp [hlen'], ?_⟩
      · rw [buildOpRange]
        rw [if_neg (by simp), if_neg (by simp), if_pos rfl, if_neg hded, hopr']
      · intro r hr
        rcases List.mem_cons.mp hr with rfl | hr'
        · exact ⟨rfl, rfl, le_refl _⟩
        · exact hall' r hr'
    · -- op = ">="
      refine ⟨(">=", (Val.float (vs.getLastD 0), Val.inf)) :: opr', ?_, by simp [hlen'], ?_⟩
      · rw [buildOpRange]
        rw [if_neg (by simp), if_pos (Or.inl rfl), hopr']
      · intro r hr
        rcases List.mem_cons.mp hr with rfl | hr'
        · exact ⟨rfl, rfl, le_top⟩
        · exact hall' r hr'
    · -- op = ">"
      refine ⟨(">", (Val.float (vs.getLastD 0), Val.inf)) :: opr', ?_, by simp [hlen'], ?_⟩
      · rw [buildOpRange]
        rw [if_neg (by simp), if_pos (Or.inr rfl), hopr']
      · intro r hr
        rcases List.mem_cons.mp hr with rfl | hr'
        · exact ⟨rfl, rfl, le_top⟩
        · exact hall' r hr'

lemma digitChar_facts {d : Nat} (h : d < 10) :
    (digitChar d).toNat = 48 + d ∧ (digitChar d).isDigit = true := by
  interval_cases d <;> exact ⟨by decide, by decide⟩

lemma digsLEF_spec : ∀ {f n : Nat}, n ≤ f →
    leVal (digsLEF f n) = n ∧ (∀ d ∈ digsLEF f n, d < 10) ∧ digsLEF f n ≠ [] := by
  intro f
  induction f with
  | zero =>
    intro n hn
    have hz : n = 0 := Nat.le_zero.mp hn
    subst hz
    exact ⟨rfl, by simp [digsLEF], by simp [digsLEF]⟩
  | succ f ih =>
    intro n hn
    by_cases h10 : n < 10
    · rw [digsLEF, if_pos h10]
      refine ⟨by simp [leVal], ?_, by simp⟩
      intro d hd
      rcases List.mem_singleton.mp hd with rfl
      exact h10
    · rw [digsLEF, if_neg h10]
      have hlt : n / 10 < n := Nat.div_lt_self (by omega) (by omega)
      obtain ⟨h1, h2, _⟩ := ih (show n / 10 ≤ f by omega)
      refine ⟨?_, ?_, by simp⟩
      · show n % 10 + 10 * leVal (digsLEF f (n / 10)) = n
        rw [h1]
        omega
      · intro d hd
        rcases List.mem_cons.mp hd with rfl | hd'
        · omega
        · exact h2 d hd'

lemma digsPadLE_spec : ∀ {k b : Nat}, b < 10 ^ k →
    leVal (digsPadLE k b) = b ∧ (∀ d ∈ digsPadLE k b, d < 10) ∧
    (digsPadLE k b).length = k := by
  intro k
  induction k with
  | zero =>
    intro b hb
    have hz : b = 0 := by
      have := hb
      rw [pow_zero] at this
      omega
    subst hz
    exact ⟨rfl, by simp [digsPadLE], rfl⟩
  | succ k ih =>
    intro b hb
    have hb2 : b / 10 < 10 ^ k := by
      rw [Nat.div_lt_iff_lt_mul (by omega)]
      calc b < 10 ^ (k + 1) := hb
        _ = 10 ^ k * 10 := by ring
    obtain ⟨h1, h2, h3⟩ := ih hb2
    rw [digsPadLE]
    refine ⟨?_, ?_, by simp [h3]⟩
    · show b % 10 + 10 * leVal (digsPadLE k (b / 10)) = b
      rw [h1]
      omega
    · intro d hd
      rcases List.mem_cons.mp hd with rfl | hd'
      · omega
      · exact h2 d hd'

lemma natVal_rev_digits : ∀ (ds : List Nat), (∀ d ∈ ds, d < 10) → ∀ (a : Nat),
    List.foldl (fun x c => 10 * x + (c.toNat - 48)) a ((ds.reverse).map digitChar)
      = a * 10 ^ ds.length + leVal ds := by
  intro ds
  induction ds with
  | nil => intro _ a; simp [leVal]
  | cons d t ih =>
    intro hds a
    rw [List.reverse_cons, List.map_append, List.foldl_append]
    rw [ih (fun x hx => hds x (by simp [hx])) a]
    simp only [List.map_cons, List.map_nil, List.foldl_cons, List.foldl_nil]
    rw [(digitChar_facts (hds d (by simp))).1, Nat.add_sub_cancel_left]
    show 10 * (a * 10 ^ t.length + leVal t) + d
        = a * 10 ^ (d :: t).length + (d + 10 * leVal t)
    rw [List.length_cons, pow_succ]
    ring

lemma natDigs_spec (m : Nat) :
    natDigs m ≠ [] ∧ natVal (natDigs m) = m ∧ ∀ c ∈ natDigs m, c.isDigit = true := by
  obtain ⟨h1, h2, h3⟩ := digsLEF_spec (le_refl m)
  have hdl : digsLE m = digsLEF m m := rfl
  refine ⟨?_, ?_, ?_⟩
  · rw [natDigs, hdl]
    simp only [ne_eq, List.map_eq_nil_iff, List.reverse_eq_nil_iff]
    exact h3
  · rw [natDigs, hdl, natVal, natVal_rev_digits _ h2 0]
    rw [Nat.zero_mul, Nat.zero_add]
    exact h1
  · intro c hc
    rw [natDigs, hdl] at hc
    obtain ⟨d, hd, rfl⟩ := List.mem_map.mp hc
    exact (digitChar_facts (h2 d (List.mem_reverse.mp hd))).2

lemma natPadChars_spec {k b : Nat} (h : b < 10 ^ k) :
    natVal (natPadChars k b) = b ∧ (natPadChars k b).length = k ∧
    ∀ c ∈ natPadChars k b, c.isDigit = true := by
  obtain ⟨h1, h2, h3⟩ := digsPadLE_spec h
  refine ⟨?_, ?_, ?_⟩
  · rw [natPadChars, natVal, natVal_rev_digits _ h2 0]
    rw [Nat.zero_mul, Nat.zero_add]
    exact h1
  · rw [natPadChars]
    simp [h3]
  · intro c hc
    rw [natPadChars] at hc
    obtain ⟨d, hd, rfl⟩ := List.mem_map.mp hc
    exact (digitChar_facts (h2 d (List.mem_reverse.mp hd))).2

lemma isVerCh_of_digit {c : Char} (h : c.isDigit = true) : isVerCh c = true := by
  rw [isVerCh, h, Bool.true_or]

lemma isOpCh_false_of_digit {c : Char} (h : c.isDigit = true) : isOpCh c = false := by
  rw [isOpCh]
  have h1 : (c == '<') = false := by
    rw [beq_eq_false_iff_ne]
    rintro rfl
    exact absurd h (by decide)
  have h2 : (c == '>') = false := by
    rw [beq_eq_false_iff_ne]
    rintro rfl
    exact absurd h (by decide)
  have h3 : (c == '=') = false := by
    rw [beq_eq_false_iff_ne]
    rintro rfl
    exact absurd h (by decide)
  rw [h1, h2, h3]
  rfl

lemma findTenExp_dvd {den k : Nat} (h : findTenExp den = some k) : den ∣ 10 ^ k := by
  have := List.find?_some h
  exact Nat.dvd_of_mod_eq_zero (by simpa using this)

lemma vntf_digits {iChars fChars : List Char}
    (hi : iChars ≠ []) (hia : ∀ c ∈ iChars, c.isDigit = true)
    (hf : fChars ≠ []) (hfa : ∀ c ∈ fChars, c.isDigit = true) :
    version_number_to_float (String.mk (iChars ++ '.' :: fChars))
      = some (mkRat (natVal iChars * 10 ^ fChars.length + natVal fChars)
          (10 ^ fChars.length)) := by
  rw [version_number_to_float]
  have hdata : (String.mk (iChars ++ '.' :: fChars)).data = iChars ++ '.' :: fChars := rfl
  rw [hdata]
  rw [takeWhile_append_head hia (fun c hc => by cases hc; decide)]
  rw [dropWhile_append_head hia (fun c hc => by cases hc; decide)]
  rw [if_neg (by simpa [List.length_eq_zero] using hi)]
  show (if (List.takeWhile Char.isDigit fChars).length = 0 then none
      else some (mkRat
        (natVal iChars * 10 ^ (List.takeWhile Char.isDigit fChars).length
          + natVal (List.takeWhile Char.isDigit fChars))
        (10 ^ (List.takeWhile Char.isDigit fChars).length)))
    = some (mkRat (natVal iChars * 10 ^ fChars.length + natVal fChars) (10 ^ fChars.length))
  rw [takeWhile_of_all hfa]
  rw [if_neg (by simpa [List.length_eq_zero] using hf)]

lemma floatRepr_eq {q : Rat} {k : Nat} (hk : findTenExp q.den = some k) :
    floatRepr q = String.mk (natDigs ((q.num.toNat * (10 ^ k / q.den)) / 10 ^ k)
      ++ '.' :: (if k = 0 then ['0']
          else natPadChars k ((q.num.toNat * (10 ^ k / q.den)) % 10 ^ k))) := by
  rw [floatRepr, hk]

lemma vntf_floatRepr {q : Rat} {k : Nat} (hq : 0 ≤ q) (hk : findTenExp q.den = some k) :
    version_number_to_float (floatRepr q) = some q := by
  have hdvd : q.den ∣ 10 ^ k := findTenExp_dvd hk
  have hcden : q.den * (10 ^ k / q.den) = 10 ^ k := Nat.mul_div_cancel' hdvd
  have hc0 : (10 ^ k / q.den) ≠ 0 := by
    intro hh
    rw [hh, Nat.mul_zero] at hcden
    exact absurd hcden.symm (by positivity)
  have hmk : mkRat ((q.num.toNat * (10 ^ k / q.den) : Nat) : Int) (10 ^ k) = q := by
    rw [show ((q.num.toNat * (10 ^ k / q.den) : Nat) : Int)
        = q.num * ((10 ^ k / q.den : Nat) : Int) from by
      push_cast [Int.toNat_of_nonneg (Rat.num_nonneg.mpr hq)]
      ring]
    nth_rewrite 2 [show (10 : Nat) ^ k = q.den * (10 ^ k / q.den) from hcden.symm]
    rw [Rat.mkRat_mul_right hc0]
    exact Rat.mkRat_self q
  by_cases hk0 : k = 0
  · subst hk0
    rw [floatRepr_eq hk, if_pos rfl]
    rw [pow_zero] at hmk
    rw [Rat.mkRat_one] at hmk
    push_cast at hmk
    obtain ⟨hne, hval, hdig⟩ := natDigs_spec (q.num.toNat * (10 ^ 0 / q.den) / 10 ^ 0)
    rw [vntf_digits hne hdig (List.cons_ne_nil '0' [])
      (fun c hc => by rw [List.mem_singleton] at hc; subst hc; decide)]
    rw [hval]
    rw [show q.num.toNat * (10 ^ 0 / q.den) / 10 ^ 0 = q.num.toNat * (10 ^ 0 / q.den) from by
      rw [pow_zero, Nat.div_one]]
    rw [show natVal ['0'] = 0 from rfl, show (['0'] : List Char).length = 1 from rfl]
    congr 1
    rw [Rat.mkRat_eq_div]
    push_cast
    rw [add_zero]
    rw [mul_div_cancel_right₀ _ (show (10 : Rat) ≠ 0 by norm_num)]
    exact hmk
  · rw [floatRepr_eq hk, if_neg hk0]
    obtain ⟨hne, hval, hdig⟩ := natDigs_spec (q.num.toNat * (10 ^ k / q.den) / 10 ^ k)
    have hmod : q.num.toNat * (10 ^ k / q.den) % 10 ^ k < 10 ^ k :=
      Nat.mod_lt _ (by positivity)
    obtain ⟨hpval, hplen, hpdig⟩ := natPadChars_spec hmod
    have hpne : natPadChars k (q.num.toNat * (10 ^ k / q.den) % 10 ^ k) ≠ [] := by
      intro hh
      rw [hh] at hplen
      exact hk0 hplen.symm
    rw [vntf_digits hne hdig hpne hpdig]
    rw [hval, hpval, hplen]
    congr 1
    have hdm := Nat.div_add_mod (q.num.toNat * (10 ^ k / q.den)) (10 ^ k)
    rw [Nat.mul_comm] at hdm
    rw [show ((q.num.toNat * (10 ^ k / q.den) / 10 ^ k : Nat) : Int) * 10 ^ k
          + ((q.num.toNat * (10 ^ k / q.den) % 10 ^ k : Nat) : Int)
        = ((q.num.toNat * (10 ^ k / q.den) : Nat) : Int) from by exact_mod_cast hdm]
    exact hmk

lemma mk_data (s : String) : String.mk s.data = s := by
  cases s
  rfl

lemma string_append_data (a b : String) : a ++ b = String.mk (a.data ++ b.data) := by
  cases a
  cases b
  rfl

lemma allowed_ops_chars {op : String} (hop : op ∈ allowed_ops) :
    op.data ≠ [] ∧ (∀ c ∈ op.data, isOpCh c = true) ∧
    (∀ c, op.data.head? = some c → isAlphaCh c = false) := by
  rw [allowed_ops] at hop
  simp only [List.mem_cons, List.mem_singleton, List.not_mem_nil, or_false] at hop
  rcases hop with rfl | rfl | rfl | rfl | rfl <;>
    exact ⟨by decide, by decide, fun c hc => by cases hc; decide⟩

lemma startsDashDash_false_of_alpha {c : Char} {t : List Char}
    (hc : isAlphaCh c = true) : startsDashDash (c :: t) = false := by
  cases t with
  | nil => rfl
  | cons c2 t2 =>
    rw [startsDashDash]
    rw [show (c == '-') = false from by
      rw [beq_eq_false_iff_ne]
      rintro rfl
      exact absurd hc (by decide)]
    rfl

lemma startsGitPlus_false_of_classes {cs : List Char}
    (h : ∀ c ∈ cs, (isAlphaCh c || isOpCh c || isVerCh c) = true) :
    startsGitPlus cs = false := by
  match cs with
  | [] => rfl
  | [_] => rfl
  | [_, _] => rfl
  | [_, _, _] => rfl
  | c1 :: c2 :: c3 :: c4 :: t =>
    rw [startsGitPlus]
    rw [show (c4 == '+') = false from by
      rw [beq_eq_false_iff_ne]
      rintro rfl
      exact absurd (h '+' (by simp)) (by decide)]
    rw [Bool.and_false]

lemma parse_requirements_line {nm ops ver : List Char}
    (hnm : nm ≠ []) (hnma : ∀ c ∈ nm, isAlphaCh c = true)
    (hops : ∀ c ∈ ops, isOpCh c = true)
    (hver : ∀ c ∈ ver, isVerCh c = true)
    (hb1 : ∀ c, (ops ++ ver).head? = some c → isAlphaCh c = false)
    (hb2 : ∀ c, ver.head? = some c → isOpCh c = false) :
    parse_requirements (String.mk (nm ++ (ops ++ ver)))
      = some [(String.mk nm, String.mk ops, String.mk ver)] := by
  have hclass : ∀ c ∈ nm ++ (ops ++ ver), (isAlphaCh c || isOpCh c || isVerCh c) = true := by
    intro c hc
    rcases List.mem_append.mp hc with h | h
    · simp [hnma c h]
    · rcases List.mem_append.mp h with h2 | h2
      · simp [hops c h2]
      · simp [hver c h2]
  have hnl : ¬ '\n' ∈ nm ++ (ops ++ ver) := by
    intro hmem
    exact absurd (hclass '\n' hmem) (by decide)
  obtain ⟨c0, nm', rfl⟩ : ∃ c0 nm', nm = c0 :: nm' := by
    cases nm with
    | nil => exact absurd rfl hnm
    | cons a t => exact ⟨a, t, rfl⟩
  have hc0 : isAlphaCh c0 = true := hnma c0 (by simp)
  have hdw : ((c0 :: nm') ++ (ops ++ ver)).dropWhile (fun c => !(isAlphaCh c))
      = (c0 :: nm') ++ (ops ++ ver) := by
    rw [List.cons_append, List.dropWhile_cons_of_neg (by simp [hc0])]
  have hsearch : rgxSearch ((c0 :: nm') ++ (ops ++ ver)) = some ((c0 :: nm'), ops, ver) := by
    rw [rgxSearch]
    simp only [hdw]
    rw [takeWhile_append_head hnma hb1]
    rw [dropWhile_append_head hnma hb1]
    rw [takeWhile_append_head hops hb2]
    rw [dropWhile_append_head hops hb2]
    rw [takeWhile_of_all hver]
    rw [List.cons_append]
  have hpl : parse_line ((c0 :: nm') ++ (ops ++ ver))
      = some (String.mk (c0 :: nm'), String.mk ops, String.mk ver) := by
    rw [parse_line, hsearch]
    rfl
  rw [parse_requirements]
  rw [show (String.mk ((c0 :: nm') ++ (ops ++ ver))).data
      = (c0 :: nm') ++ (ops ++ ver) from rfl]
  rw [splitNl_no_newline hnl]
  rw [parseLines]
  rw [if_neg (by simp)]
  rw [if_neg (show ¬ ((c0 :: nm') ++ (ops ++ ver)).headD ' ' = '#' from by
    rw [List.cons_append, List.headD_cons]
    rintro rfl
    exact absurd hc0 (by decide))]
  rw [show startsDashDash ((c0 :: nm') ++ (ops ++ ver)) = false from by
    rw [List.cons_append]
    exact startsDashDash_false_of_alpha hc0]
  rw [show startsGitPlus ((c0 :: nm') ++ (ops ++ ver)) = false from
    startsGitPlus_false_of_classes hclass]
  rw [Bool.or_false, if_neg Bool.false_ne_true]
  rw [hpl, parseLines]

lemma floatRepr_data {q : Rat} {k : Nat} (hk : findTenExp q.den = some k) :
    (floatRepr q).data = natDigs ((q.num.toNat * (10 ^ k / q.den)) / 10 ^ k)
      ++ '.' :: (if k = 0 then ['0']
          else natPadChars k ((q.num.toNat * (10 ^ k / q.den)) % 10 ^ k)) := by
  rw [floatRepr_eq hk]

lemma floatRepr_classes {q : Rat} {k : Nat} (hk : findTenExp q.den = some k) :
    (∀ c ∈ (floatRepr q).data, isVerCh c = true) ∧
    (∀ c, (floatRepr q).data.head? = some c → isOpCh c = false) := by
  rw [floatRepr_data hk]
  constructor
  · intro c hc
    rcases List.mem_append.mp hc with h | h
    · exact isVerCh_of_digit ((natDigs_spec _).2.2 c h)
    · rcases List.mem_cons.mp h with rfl | h2
      · decide
      · by_cases hk0 : k = 0
        · rw [if_pos hk0] at h2
          rcases List.mem_singleton.mp h2 with rfl
          decide
        · rw [if_neg hk0] at h2
          exact isVerCh_of_digit
            ((natPadChars_spec (Nat.mod_lt _ (by positivity))).2.2 c h2)
  · intro c hc
    obtain ⟨d0, t0, hnd⟩ :=
      List.exists_cons_of_ne_nil (natDigs_spec ((q.num.toNat * (10 ^ k / q.den)) / 10 ^ k)).1
    rw [hnd, List.cons_append, List.head?_cons] at hc
    cases hc
    exact isOpCh_false_of_digit ((natDigs_spec _).2.2 _ (by rw [hnd]; simp))

lemma fuser_single_versioned {name op ver : String} {q : Rat}
    (hv : version_number_to_float ver = some q) :
    fuser [[(name, op, ver)]] = .ok [(name, [(op, Val.float q)])] := by
  have hlen : (ver.length != 0) = true := by
    simpa [bne_iff_ne] using vntf_length_ne_zero hv
  have hdedup : ([name] : List String).dedup = [name] := by
    rw [List.dedup_cons_of_not_mem (List.not_mem_nil name)]
    rfl
  simp [fuser, allPkgs, hdedup, fuserLoop, fusePkg, pkgVersions, entriesFor, hlen,
    pkgVersionsLoop, hv]

/-! ## Theorems about the claims -/

/-- Claim C1 (refuted by the code, code bug): fusing `pkgA>=2.2` from
one source with `pkgA<=3.0` from another is claimed to yield the closed
range `pkgA>=2.2,<=3.0`; the code instead returns the single open bound
`('>', 0)`.  Lines 163 to 164 of fuser.py take the maximum of the range
upper ends and the minimum of the range lower ends, which is the convex
hull of the operator ranges, although the comment at line 140 announces
their intersection and the docstring example at lines 99 to 109 promises
exactly the closed range `[('>=', 2.2), ('<=', 3.0)]` for this very
input. -/
theorem c1_closed_range_not_emitted :
    fuser [[("pkgA", ">=", "2.2")], [("pkgA", "<=", "3.0")]]
      = .ok [("pkgA", [(">", Val.int 0)])] := by decide

/-- Claim C2 (refuted by the code, code bug): fusing `pkgA<2.0` with
`pkgA>3.0` is claimed to raise the fusion conflict; the code raises
nothing and returns `('>', 0)`, because the hull computation of lines
163 to 164 gives `roof = inf` and `floor = 0`, so the `roof < floor`
test at line 166 cannot fire, contradicting the conflict detection
announced by the comment at lines 139 to 140. -/
theorem c2_conflict_not_raised :
    fuser [[("pkgA", "<", "2.0")], [("pkgA", ">", "3.0")]]
      = .ok [("pkgA", [(">", Val.int 0)])] := by decide

/-- Claim C3 (refuted by the code, code bug): an operator outside the
five known ones is claimed to fail with UnsupportedOperator.  Instead,
a package with a single unknown-operator spec (`pkgA=>3.0`, which the
line regex happily produces) is passed through untouched, and when two
such specs force the bucket machinery, the raise at fuser.py line 160
evaluates the undefined name `alowed_ops` inside its message f-string,
so Python raises NameError rather than the UnsupportedOperatorError the
line constructs. -/
theorem c3_unknown_operator_behaviour :
    fuser [[("pkgA", "=>", "3.0")]] = .ok [("pkgA", [("=>", Val.float 3)])] ∧
    fuser [[("pkgA", "=>", "3.0")], [("pkgA", "=>", "4.0")]]
      = .error (.nameError "alowed_ops") :=
  ⟨by decide, by decide⟩

/-- Claim C5 (refuted by the code, code bug): with only upper bounds
`pkgA<=5.0` and `pkgA<6.0` the fusion is claimed to keep the tighter
bound `<=5.0`, and with only lower bounds `pkgA>=1.0` and `pkgA>0.5`
the tighter bound `>=1.0`.  The code instead returns the looser bound
each time (`roof` is the maximum of the upper ends and `floor` the
minimum of the lower ends, across buckets), and it emits the exclusive
operator because the inclusive-preference tests at lines 172 and 177
compare a number with the two-element list `op_range[op]`, which is
always False in Python. -/
theorem c5_loosest_bound_emitted :
    fuser [[("pkgA", "<=", "5.0")], [("pkgA", "<", "6.0")]]
      = .ok [("pkgA", [("<", Val.float 6)])] ∧
    fuser [[("pkgA", ">=", "1.0")], [("pkgA", ">", "0.5")]]
      = .ok [("pkgA", [(">", Val.float (mkRat 1 2))])] :=
  ⟨by decide, by decide⟩

/-- Claim C9, counterexample: a non-conflicting fused result for a
single package need not round-trip through rendering and re-parsing.
Two identical pins `pkgA==3.2` fuse, without conflict, to the closed
range `[('>=', 3.2), ('<=', 3.2)]`, which renders as
`pkgA>=3.2,<=3.2`; re-parsing that line keeps only the first clause
(the line regex stops at the comma), and the surviving constraint
`>=3.2` admits the version 4.0 that the original constraint set
rejects, so the re-parsed set is not equivalent. -/
theorem c9_roundtrip_counterexample :
    fuser [[("pkgA", "==", "3.2")], [("pkgA", "==", "3.2")]]
      = .ok [("pkgA", [(">=", Val.float (mkRat 16 5)), ("<=", Val.float (mkRat 16 5))])] ∧
    to_string [("pkgA", [(">=", Val.float (mkRat 16 5)), ("<=", Val.float (mkRat 16 5))])]
      = "pkgA>=3.2,<=3.2" ∧
    parse_requirements "pkgA>=3.2,<=3.2" = some [("pkgA", ">=", "3.2")] ∧
    fuser [[("pkgA", ">=", "3.2")]] = .ok [("pkgA", [(">=", Val.float (mkRat 16 5))])] ∧
    clausesSat [(">=", Val.float (mkRat 16 5))] 4 = true ∧
    clausesSat [(">=", Val.float (mkRat 16 5)), ("<=", Val.float (mkRat 16 5))] 4 = false :=
  ⟨by decide, by decide, by decide, by decide, by decide, by decide⟩

/-- Claim C8 (confirmed): a pass-through line (beginning with `--` or
`git+`, and containing no newline so that it is one line) parses to a
RawEntry whose package name is the whole literal line with empty
operator and version, is resolved by the fuser to the no-constraint
placeholder without any version comparison, and is rendered back by
to_string character for character. -/
theorem c8_passthrough_preserved {r : String}
    (hpass : startsDashDash r.data = true ∨ startsGitPlus r.data = true)
    (hnl : ¬ '\n' ∈ r.data) :
    parse_requirements r = some [(r, "", "")] ∧
    fuser [[(r, "", "")]] = .ok [(r, [("", Val.str "")])] ∧
    to_string [(r, [("", Val.str "")])] = r := by
  refine ⟨?_, fuser_single_passthrough r, to_string_single_noconstraint r⟩
  rw [parse_requirements, splitNl_no_newline hnl]
  have hmk : String.mk r.data = r := by cases r; rfl
  rcases hpass with h | h
  · obtain ⟨t, ht⟩ := startsDashDash_shape h
    rw [ht]
    rw [← hmk, ht]
    simp [parseLines, startsDashDash]
  · obtain ⟨t, ht⟩ := startsGitPlus_shape h
    rw [ht]
    rw [← hmk, ht]
    simp [parseLines, startsGitPlus]

/-- witness for C8 at a concrete pass-through line. -/
theorem c8_witness :
    startsGitPlus ("git+https://example.com/repo" : String).data = true ∧
    (¬ '\n' ∈ ("git+https://example.com/repo" : String).data) ∧
    (parse_requirements "git+https://example.com/repo"
        = some [("git+https://example.com/repo", "", "")] ∧
     fuser [[("git+https://example.com/repo", "", "")]]
        = .ok [("git+https://example.com/repo", [("", Val.str "")])] ∧
     to_string [("git+https://example.com/repo", [("", Val.str "")])]
        = "git+https://example.com/repo") :=
  ⟨by decide, by decide, c8_passthrough_preserved (Or.inr (by decide)) (by decide)⟩

lemma versionsByOp_ne_nil {versions : List (String × Rat)} (h : versions ≠ []) :
    versionsByOp versions ≠ [] := by
  cases versions with
  | nil => cases h rfl
  | cons p t =>
    rw [versionsByOp, firstDedup]
    simp [firstDedupF]

/-- Claim C10 (confirmed): for a package with at least two versioned
specs whose operators are among the five allowed ones, with at most one
distinct `==` value and non-negative version numbers, the computed
floor (minimum of the range lower ends) never exceeds the computed roof
(maximum of the range upper ends): the `roof < floor` conflict branch
at fuser.py line 166 is unreachable and the multi-constraint path
returns without raising, so DependencyConflictError can only come from
the `==` bucket holding two or more distinct versions. -/
theorem c10_hull_no_conflict {pkg : String} {versions : List (String × Rat)}
    (hlen : 2 ≤ versions.length)
    (hops : ∀ p ∈ versions, p.1 ∈ allowed_ops)
    (hpos : ∀ p ∈ versions, 0 ≤ p.2)
    (heq : ((versions.filterMap
        (fun p => if p.1 = "==" then some p.2 else none)).dedup).length ≤ 1) :
    ∃ opr, buildOpRange pkg (versionsByOp versions) = .ok opr ∧
      Val.blt (pyMaxVal (opr.map (fun r => r.2.2)))
        (pyMinVal (opr.map (fun r => r.2.1))) = false ∧
      ∃ out, fuseMany pkg versions = .ok out := by
  have hops2 : ∀ p ∈ versionsByOp versions, p.1 ∈ allowed_ops := by
    intro p hp
    obtain ⟨⟨e, he, hee⟩, _⟩ := mem_versionsByOp hp
    exact hee ▸ hops e he
  have heq2 : ∀ p ∈ versionsByOp versions, p.1 = "==" → p.2.dedup.length ≤ 1 := by
    intro p hp h1
    obtain ⟨_, hb⟩ := mem_versionsByOp hp
    rw [hb, h1, bucketOf]
    rw [(List.Perm.dedup (isort_perm _)).length_eq]
    exact heq
  have hpos2 : ∀ p ∈ versionsByOp versions, ∀ v ∈ p.2, 0 ≤ v := by
    intro p hp v hv
    obtain ⟨_, hb⟩ := mem_versionsByOp hp
    exact bucketOf_nonneg hpos p.1 v (hb ▸ hv)
  obtain ⟨opr, hopr, hlenopr, hall⟩ := buildOpRange_ok hops2 heq2 hpos2
  cases opr with
  | nil =>
    exfalso
    have hne : versions ≠ [] := by
      intro hh
      rw [hh] at hlen
      exact absurd hlen (by simp)
    exact versionsByOp_ne_nil hne (List.length_eq_zero.mp hlenopr.symm)
  | cons r opr2 =>
    have hrmem := hall r (by simp)
    have hnum2 : ∀ x ∈ opr2.map (fun rr => rr.2.2), x.isNum = true := by
      intro x hx
      obtain ⟨rr, hrr, rfl⟩ := List.mem_map.mp hx
      exact (hall rr (by simp [hrr])).2.1
    have hnum1 : ∀ x ∈ opr2.map (fun rr => rr.2.1), x.isNum = true := by
      intro x hx
      obtain ⟨rr, hrr, rfl⟩ := List.mem_map.mp hx
      exact (hall rr (by simp [hrr])).1
    have hmax := foldlMax_ge hrmem.2.1 hnum2
    have hmin := foldlMin_le hrmem.1 hnum1
    have hmaxe : pyMaxVal ((r :: opr2).map (fun rr => rr.2.2))
        = (opr2.map (fun rr => rr.2.2)).foldl (fun acc x => if Val.blt acc x then x else acc) r.2.2 := by
      rw [List.map_cons, pyMaxVal]
    have hmine : pyMinVal ((r :: opr2).map (fun rr => rr.2.1))
        = (opr2.map (fun rr => rr.2.1)).foldl (fun acc x => if Val.blt x acc then x else acc) r.2.1 := by
      rw [List.map_cons, pyMinVal]
    have hchain : (pyMinVal ((r :: opr2).map (fun rr => rr.2.1))).toW
        ≤ (pyMaxVal ((r :: opr2).map (fun rr => rr.2.2))).toW := by
      rw [hmaxe, hmine]
      exact le_trans hmin.2 (le_trans hrmem.2.2 hmax.2)
    have hblt : Val.blt (pyMaxVal ((r :: opr2).map (fun rr => rr.2.2)))
        (pyMinVal ((r :: opr2).map (fun rr => rr.2.1))) = false := by
      cases hb : Val.blt (pyMaxVal ((r :: opr2).map (fun rr => rr.2.2)))
          (pyMinVal ((r :: opr2).map (fun rr => rr.2.1))) with
      | false => rfl
      | true =>
        have hmaxn : (pyMaxVal ((r :: opr2).map (fun rr => rr.2.2))).isNum = true := by
          rw [hmaxe]; exact hmax.1
        have hminn : (pyMinVal ((r :: opr2).map (fun rr => rr.2.1))).isNum = true := by
          rw [hmine]; exact hmin.1
        exact absurd ((blt_iff hmaxn hminn).mp hb) (not_lt.mpr hchain)
    refine ⟨r :: opr2, hopr, hblt, ?_⟩
    rw [fuseMany, hopr]
    dsimp only
    rw [hblt, if_neg Bool.false_ne_true]
    split
    · exact ⟨_, rfl⟩
    · split
      · exact ⟨_, rfl⟩
      · exact ⟨_, rfl⟩

/-- witness for C10 at a concrete input: the constraints
`>=2.2`, `<=3.0` and `==2.5` for one package. -/
theorem c10_witness :
    2 ≤ ([(">=", mkRat 11 5), ("<=", (3 : Rat)), ("==", mkRat 5 2)] : List (String × Rat)).length ∧
    (∀ p ∈ ([(">=", mkRat 11 5), ("<=", (3 : Rat)), ("==", mkRat 5 2)] : List (String × Rat)),
      p.1 ∈ allowed_ops) ∧
    (∀ p ∈ ([(">=", mkRat 11 5), ("<=", (3 : Rat)), ("==", mkRat 5 2)] : List (String × Rat)),
      0 ≤ p.2) ∧
    (∃ opr, buildOpRange "pkgA"
        (versionsByOp [(">=", mkRat 11 5), ("<=", (3 : Rat)), ("==", mkRat 5 2)]) = .ok opr ∧
      Val.blt (pyMaxVal (opr.map (fun r => r.2.2)))
        (pyMinVal (opr.map (fun r => r.2.1))) = false ∧
      ∃ out, fuseMany "pkgA" [(">=", mkRat 11 5), ("<=", (3 : Rat)), ("==", mkRat 5 2)] = .ok out) :=
  ⟨by decide, by decide, by decide,
    @c10_hull_no_conflict "pkgA" [(">=", mkRat 11 5), ("<=", (3 : Rat)), ("==", mkRat 5 2)]
      (by decide) (by decide) (by decide) (by decide)⟩

/-- Claim C4 (confirmed): two distinct `==` pins for the same package
raise DependencyConflictError carrying that package's name and both
conflicting version values (fuser.py lines 155 to 156). -/
theorem c4_eq_bucket_conflict {pkg v1 v2 : String} {q1 q2 : Rat}
    (h1 : version_number_to_float v1 = some q1)
    (h2 : version_number_to_float v2 = some q2)
    (hne : q1 ≠ q2) :
    ∃ vs, fuser [[(pkg, "==", v1)], [(pkg, "==", v2)]]
        = .error (.dependencyConflict pkg vs) ∧ q1 ∈ vs ∧ q2 ∈ vs := by
  have hb1 : (v1.length != 0) = true := by
    simpa [bne_iff_ne] using vntf_length_ne_zero h1
  have hb2 : (v2.length != 0) = true := by
    simpa [bne_iff_ne] using vntf_length_ne_zero h2
  have hent : entriesFor pkg [[(pkg, "==", v1)], [(pkg, "==", v2)]]
      = [(pkg, "==", v1), (pkg, "==", v2)] := by
    simp [entriesFor, hb1, hb2]
  have hvbo : versionsByOp [("==", q1), ("==", q2)] = [("==", insertR q1 [q2])] := by
    simp [versionsByOp, firstDedup, firstDedupF, bucketOf, isort, insertR]
  have hfm : ∃ vs, fuseMany pkg [("==", q1), ("==", q2)]
      = .error (.dependencyConflict pkg vs) ∧ q1 ∈ vs ∧ q2 ∈ vs := by
    by_cases hle : q1 ≤ q2
    · have hins : insertR q1 [q2] = [q1, q2] := by simp [insertR, hle]
      have hded : ([q1, q2] : List Rat).dedup = [q1, q2] := by
        rw [List.dedup_cons_of_not_mem (by simp [hne]),
          List.dedup_cons_of_not_mem (List.not_mem_nil q2)]
        rfl
      refine ⟨[q1, q2], ?_, by simp, by simp⟩
      rw [fuseMany, hvbo, hins]
      simp [buildOpRange, hded]
    · have hins : insertR q1 [q2] = [q2, q1] := by simp [insertR, hle]
      have hded : ([q2, q1] : List Rat).dedup = [q2, q1] := by
        rw [List.dedup_cons_of_not_mem (by simp [Ne.symm hne]),
          List.dedup_cons_of_not_mem (List.not_mem_nil q1)]
        rfl
      refine ⟨[q2, q1], ?_, by simp, by simp⟩
      rw [fuseMany, hvbo, hins]
      simp [buildOpRange, hded]
  obtain ⟨vs, hvs, hq1, hq2⟩ := hfm
  refine ⟨vs, ?_, hq1, hq2⟩
  have hfp : fusePkg pkg [[(pkg, "==", v1)], [(pkg, "==", v2)]]
      = .error (.dependencyConflict pkg vs) := by
    rw [fusePkg, pkgVersions, hent]
    simp [pkgVersionsLoop, h1, h2]
    exact hvs
  have hpk : allPkgs [[(pkg, "==", v1)], [(pkg, "==", v2)]] = [pkg] := by
    simp [allPkgs]
  rw [fuser, hpk, fuserLoop, hfp]

/-- witness for C4 at a concrete input: `pkgA==3.2` against
`pkgA==4.0`. -/
theorem c4_witness :
    version_number_to_float "3.2" = some (mkRat 16 5) ∧
    version_number_to_float "4.0" = some 4 ∧
    mkRat 16 5 ≠ (4 : Rat) ∧
    (∃ vs, fuser [[("pkgA", "==", "3.2")], [("pkgA", "==", "4.0")]]
        = .error (.dependencyConflict "pkgA" vs) ∧ mkRat 16 5 ∈ vs ∧ (4 : Rat) ∈ vs) :=
  ⟨by decide, by decide, by decide,
    @c4_eq_bucket_conflict "pkgA" "3.2" "4.0" (mkRat 16 5) 4
      (by decide) (by decide) (by decide)⟩

/-- Claim C9, amended (corrected): rendering a non-conflicting fused
single-package result and re-parsing it reproduces the same constraint
set, provided the resolved constraint has at most one clause and its
bound, if any, is a finite float: the rendered line re-parses to one
entry whose re-fusion gives back exactly the original mapping.  (The
counterexample above shows that a two-clause closed range does not
survive the comma, which the line regex cannot cross.) -/
theorem c9_roundtrip_single_clause {name : String} {clauses : List (String × Val)}
    (hname : name.data ≠ [] ∧ ∀ c ∈ name.data, isAlphaCh c = true)
    (hcl : clauses = [("", Val.str "")] ∨
      ∃ op q k, op ∈ allowed_ops ∧ 0 ≤ q ∧ findTenExp q.den = some k ∧
        clauses = [(op, Val.float q)]) :
    ∃ es, parse_requirements (to_string [(name, clauses)]) = some es ∧
      fuser [es] = .ok [(name, clauses)] := by
  obtain ⟨hne, halpha⟩ := hname
  rcases hcl with rfl | ⟨op, q, k, hop, hq0, hk, rfl⟩
  · refine ⟨[(name, "", "")], ?_, fuser_single_passthrough name⟩
    rw [to_string_single_noconstraint]
    have h := @parse_requirements_line name.data [] [] hne halpha
      (fun c hc => by cases hc) (fun c hc => by cases hc)
      (fun c hc => by cases hc) (fun c hc => by cases hc)
    rw [show name.data ++ (([] : List Char) ++ []) = name.data from by simp] at h
    rw [mk_data] at h
    exact h
  · refine ⟨[(name, op, floatRepr q)], ?_, fuser_single_versioned (vntf_floatRepr hq0 hk)⟩
    obtain ⟨hopne, hopch, hophead⟩ := allowed_ops_chars hop
    obtain ⟨hfrcls, hfrhead⟩ := floatRepr_classes hk
    have hb1 : ∀ c, (op.data ++ (floatRepr q).data).head? = some c → isAlphaCh c = false := by
      intro c hc
      obtain ⟨oc, ot, hoc⟩ := List.exists_cons_of_ne_nil hopne
      rw [hoc, List.cons_append, List.head?_cons] at hc
      cases hc
      exact hophead _ (by rw [hoc]; rfl)
    have hline : to_string [(name, [(op, Val.float q)])]
        = String.mk (name.data ++ (op.data ++ (floatRepr q).data)) := by
      rw [show to_string [(name, [(op, Val.float q)])]
          = name ++ (op ++ floatRepr q) from rfl]
      rw [string_append_data op (floatRepr q), string_append_data name _]
    rw [hline]
    have h := parse_requirements_line hne halpha hopch hfrcls hb1 hfrhead
    rw [mk_data, mk_data, mk_data] at h
    exact h

/-- witness for C9 at a concrete input: the fused pin
`editdistance==3.2`. -/
theorem c9_witness :
    (("editdistance" : String).data ≠ [] ∧
      ∀ c ∈ ("editdistance" : String).data, isAlphaCh c = true) ∧
    ("==" ∈ allowed_ops ∧ (0 : Rat) ≤ mkRat 16 5 ∧
      findTenExp (mkRat 16 5).den = some 1) ∧
    (∃ es, parse_requirements
        (to_string [("editdistance", [("==", Val.float (mkRat 16 5))])]) = some es ∧
      fuser [es] = .ok [("editdistance", [("==", Val.float (mkRat 16 5))])]) :=
  ⟨⟨by decide, by decide⟩, ⟨by decide, by decide, by decide⟩,
    @c9_roundtrip_single_clause "editdistance" [("==", Val.float (mkRat 16 5))]
      ⟨by decide, by decide⟩
      (Or.inr ⟨"==", mkRat 16 5, 1, by decide, by decide, by decide, rfl⟩)⟩

/-- Claim C6 (confirmed): a package whose versioned constraints across
all sources are exactly one `==` pin resolves to exactly that pin, the
operator `==` paired with the float value of the pinned version
(single-constraint path of fuser.py lines 136 to 137). -/
theorem c6_single_pin_preserved {rl : List (List RawEntry)} {pkg v : String} {q : Rat}
    {m : List (String × List (String × Val))}
    (hent : entriesFor pkg rl = [(pkg, "==", v)])
    (hq : version_number_to_float v = some q)
    (hm : fuser rl = .ok m) :
    List.lookup pkg m = some [("==", Val.float q)] := by
  have he : ((pkg, "==", v) : RawEntry) ∈ entriesFor pkg rl := by rw [hent]; simp
  rw [entriesFor] at he
  have hmem : pkg ∈ allPkgs rl := mem_allPkgs_of_entry (List.mem_filter.mp he).1
  have hfp : fusePkg pkg rl = .ok [("==", Val.float q)] := by
    rw [fusePkg, pkgVersions, hent]
    simp [pkgVersionsLoop, hq]
  rw [fuser] at hm
  rw [fuserLoop_lookup (List.nodup_dedup _) hm hmem, hfp]
  rfl

/-- witness for C6 at a concrete input: one source pinning
`yapf==0.3` next to an unversioned `timm`. -/
theorem c6_witness :
    entriesFor "yapf" [[("yapf", "==", "0.3"), ("timm", "", "")]] = [("yapf", "==", "0.3")] ∧
    version_number_to_float "0.3" = some (mkRat 3 10) ∧
    fuser [[("yapf", "==", "0.3"), ("timm", "", "")]]
      = .ok [("yapf", [("==", Val.float (mkRat 3 10))]), ("timm", [("", Val.str "")])] ∧
    List.lookup "yapf"
        [("yapf", [("==", Val.float (mkRat 3 10))]), ("timm", [("", Val.str "")])]
      = some [("==", Val.float (mkRat 3 10))] :=
  ⟨by decide, by decide, by decide,
    @c6_single_pin_preserved [[("yapf", "==", "0.3"), ("timm", "", "")]] "yapf" "0.3"
      (mkRat 3 10) [("yapf", [("==", Val.float (mkRat 3 10))]), ("timm", [("", Val.str "")])]
      (by decide) (by decide) (by decide)⟩

/-- Claim C7 (confirmed): a package that appears in the inputs but
never with a version resolves to the no-constraint placeholder and
still appears in the output mapping (fuser.py lines 134 to 135). -/
theorem c7_unversioned_package_kept {rl : List (List RawEntry)} {pkg : String}
    {m : List (String × List (String × Val))}
    (hocc : pkg ∈ rl.flatten.map (fun e => e.1))
    (hnov : entriesFor pkg rl = [])
    (hm : fuser rl = .ok m) :
    List.lookup pkg m = some [("", Val.str "")] := by
  have hmem : pkg ∈ allPkgs rl := by rw [allPkgs, List.mem_dedup]; exact hocc
  have hfp : fusePkg pkg rl = .ok [("", Val.str "")] := by
    rw [fusePkg, pkgVersions, hnov]
    rfl
  rw [fuser] at hm
  rw [fuserLoop_lookup (List.nodup_dedup _) hm hmem, hfp]
  rfl

/-- witness for C7 at a concrete input: `wandb` appears in both
sources, always without a version. -/
theorem c7_witness :
    ("wandb" ∈ ([[("wandb", "", ""), ("pytorch", ">=", "2.2")]] :
        List (List RawEntry)).flatten.map (fun e => e.1)) ∧
    entriesFor "wandb" [[("wandb", "", ""), ("pytorch", ">=", "2.2")]] = [] ∧
    fuser [[("wandb", "", ""), ("pytorch", ">=", "2.2")]]
      = .ok [("wandb", [("", Val.str "")]), ("pytorch", [(">=", Val.float (mkRat 11 5))])] ∧
    List.lookup "wandb"
        [("wandb", [("", Val.str "")]), ("pytorch", [(">=", Val.float (mkRat 11 5))])]
      = some [("", Val.str "")] :=
  ⟨by decide, by decide, by decide,
    @c7_unversioned_package_kept [[("wandb", "", ""), ("pytorch", ">=", "2.2")]] "wandb"
      [("wandb", [("", Val.str "")]), ("pytorch", [(">=", Val.float (mkRat 11 5))])]
      (by decide) (by decide) (by decide)⟩

end Combreq
